import Mathlib

/-!
Verification of the locaLLM_bot message-intake core: a shallow embedding of
the Go sources (utils.go, ollama.go, main.go) together with proofs of the
spec-level properties of the Segmenter, the Access Guard, the Rate Limiter,
the Intake Loop watermark and the Dispatcher.

Conventions of the embedding:
 - Go byte strings are modelled as `List Char`, one `Char` per byte; `len`
   is `List.length`.
 - Go `int`/`int64` values and `time.Time` instants are modelled as `Int`
   (no arithmetic here comes close to overflow); durations are `Int`
   numbers of seconds.
 - the Go map `map[int64][]time.Time` is modelled as a total function
   `Int → List Int` whose default value is `[]`, which is exactly the
   zero-value semantics of a Go map read.
 - transport sends always succeed; outbound traffic is collected in a list.
-/

/-- Byte-level whitespace test used by the Segmenter when it skips
characters at a chunk boundary (space or newline). -/
def isWS (c : Char) : Bool := c = ' ' || c = '\n'

/-- utils.go, `SplitMessage` inner loop after each cut: skip the leading run
of spaces/newlines of the remainder. -/
def stripWS : List Char → List Char
  | [] => []
  | c :: rest => if c = ' ' || c = '\n' then stripWS rest else c :: rest

/-- utils.go backward scan `for i := start; i > 0 && i > maxLen-win; i--`
testing `current[i-1] == target`; returns the first (largest) index `i`
whose preceding character matches, `none` if the window has none. -/
def scanBack (cur : List Char) (target : Char) (win maxLen : Nat) : Nat → Option Nat
  | 0 => none
  | i + 1 =>
    if i + 1 + win > maxLen then
      if cur[i]? = some target then some (i + 1) else scanBack cur target win maxLen i
    else none

/-- The cut position chosen by one iteration of the splitting loop of
`SplitMessage`: the last newline in `(maxLen-100, maxLen]` if any, else the
last space in `(maxLen-50, maxLen]` if any, else `maxLen`. As in the Go
code, a newline found exactly at `maxLen` leaves `splitPos == maxLen`, so
the space scan still runs in that case. -/
def splitPosOf (cur : List Char) (maxLen : Nat) : Nat :=
  let s1 := match scanBack cur '\n' 100 maxLen maxLen with
    | some p => p
    | none => maxLen
  if s1 = maxLen then
    match scanBack cur ' ' 50 maxLen maxLen with
    | some p => p
    | none => s1
  else s1

/-- The `for len(current) > maxLen` loop of `SplitMessage`. The `1 ≤ maxLen`
conjunct records the precondition established by the caller's `maxLen <= 0`
guard; it is what makes every iteration shorten `current`. -/
def splitLoop (maxLen : Nat) (cur : List Char) : List (List Char) :=
  if h : 1 ≤ maxLen ∧ maxLen < cur.length then
    cur.take (splitPosOf cur maxLen) ::
      splitLoop maxLen (stripWS (cur.drop (splitPosOf cur maxLen)))
  else if 0 < cur.length then [cur] else []
termination_by cur.length
decreasing_by
  obtain ⟨hm, hcur⟩ := h
  have hstrip : ∀ l : List Char, (stripWS l).length ≤ l.length := by
    intro l
    induction l with
    | nil => simp [stripWS]
    | cons c rest ih =>
      rw [stripWS]
      split
      · exact Nat.le_succ_of_le ih
      · simp
  have hscan : ∀ (t : Char) (win i p : Nat),
      scanBack cur t win maxLen i = some p → 1 ≤ p := by
    intro t win i
    induction i with
    | zero => intro p hp; simp [scanBack] at hp
    | succ i ih =>
      intro p hp
      rw [scanBack] at hp
      split at hp
      · split at hp
        · cases hp; omega
        · exact ih p hp
      · cases hp
  have hpos : 1 ≤ splitPosOf cur maxLen := by
    unfold splitPosOf
    cases h1 : scanBack cur '\n' 100 maxLen maxLen with
    | none =>
      simp only
      split
      · cases h2 : scanBack cur ' ' 50 maxLen maxLen with
        | none => simpa using hm
        | some p => simpa using hscan ' ' 50 maxLen p h2
      · simpa using hm
    | some p =>
      simp only
      split
      · cases h2 : scanBack cur ' ' 50 maxLen maxLen with
        | none => simpa using hscan '\n' 100 maxLen p h1
        | some q => simpa using hscan ' ' 50 maxLen q h2
      · simpa using hscan '\n' 100 maxLen p h1
  calc (stripWS (cur.drop (splitPosOf cur maxLen))).length
      ≤ (cur.drop (splitPosOf cur maxLen)).length := hstrip _
    _ = cur.length - splitPosOf cur maxLen := by simp
    _ < cur.length := by omega

/-- utils.go `SplitMessage(text, maxLen)` (the variant with the
`maxLen <= 0` default guard): texts not longer than `maxLen` pass through
unsplit; otherwise a non-positive `maxLen` is replaced by 4000 and the
splitting loop runs. -/
def SplitMessage (text : List Char) (maxLen : Int) : List (List Char) :=
  if (text.length : Int) ≤ maxLen then [text]
  else splitLoop (if maxLen ≤ 0 then 4000 else maxLen.toNat) text

/-- Fuel-bounded transcription of the splitting loop: `none` means the loop
was still running after `fuel` iterations. Unlike `splitLoop`, this version
models the Go loop for every `maxLen`, including `maxLen = 0` where the loop
can fail to make progress. -/
def splitLoopF (maxLen : Nat) : Nat → List Char → Option (List (List Char))
  | fuel, cur =>
    if maxLen < cur.length then
      match fuel with
      | 0 => none
      | f + 1 =>
        (splitLoopF maxLen f (stripWS (cur.drop (splitPosOf cur maxLen)))).map
          (cur.take (splitPosOf cur maxLen) :: ·)
    else if 0 < cur.length then some [cur] else some []

/-- Fuel-bounded transcription of `SplitMessage`. -/
def SplitMessageF (text : List Char) (maxLen : Int) (fuel : Nat) :
    Option (List (List Char)) :=
  if (text.length : Int) ≤ maxLen then some [text]
  else splitLoopF (if maxLen ≤ 0 then 4000 else maxLen.toNat) fuel text

/-- `joinWith [c1, …, cn] [w1, …, wk]` is `c1 ++ w1 ++ c2 ++ w2 ++ …`,
running out of separators silently: the shape in which the Segmenter's
chunks and the skipped whitespace runs reassemble the original text. -/
def joinWith : List (List Char) → List (List Char) → List Char
  | [], _ => []
  | c :: cs, [] => c ++ joinWith cs []
  | c :: cs, w :: ws => c ++ (w ++ joinWith cs ws)

/-- ollama.go `User`: the sender attached to a message (only the identity
matters to the core). -/
structure User where
  id : Int
deriving DecidableEq

/-- ollama.go `Chat`: the destination chat of a message. -/
structure Chat where
  id : Int
deriving DecidableEq

/-- ollama.go `Message`: an inbound message; `From` is optional exactly as
the Go pointer field `From *User`. -/
structure Message where
  From : Option User
  chat : Chat
  text : List Char
deriving DecidableEq

/-- ollama.go `Update`: one long-poll event with its sequence number. -/
structure Update where
  updateID : Int
  message : Option Message
deriving DecidableEq

/-- ollama.go `isUserAllowed`: an empty allow-list admits everyone;
otherwise membership of `From.ID` decides, falling back to `Chat.ID` when
the message carries no sender. The allow-list is the key set of the Go map
`AllowedUsers` (whose values are always `true`). -/
def isUserAllowed (allowedUsers : List Int) (message : Message) : Bool :=
  if allowedUsers.isEmpty then true
  else
    match message.From with
    | some u => allowedUsers.contains u.id
    | none => allowedUsers.contains message.chat.id

/-- The all-empty rate-limiter map (`make(map[int64][]time.Time)`). -/
def rateEmpty : Int → List Int := fun _ => []

/-- ollama.go `checkRateLimit`: sliding-window admission. Keeps the
timestamps of the user strictly after `now - rateWindow` (`t.After`), rejects
and persists the pruned list when the capacity is reached, otherwise records
`now` and accepts. -/
def checkRateLimit (maxRequests : Nat) (rateWindow : Int)
    (limiter : Int → List Int) (userID now : Int) :
    Bool × (Int → List Int) :=
  let windowStart := now - rateWindow
  let recent := (limiter userID).filter (fun t => decide (windowStart < t))
  if maxRequests ≤ recent.length then
    (false, fun u => if u = userID then recent else limiter u)
  else
    (true, fun u => if u = userID then recent ++ [now] else limiter u)

/-- Modelled from the spec: the reference sliding-window admission rule,
written from the spec's words — compute `windowStart = now - W`; drop all
retained timestamps `≤ windowStart`; reject (persisting the pruned list)
when the remaining count is `≥ N`; otherwise append `now` and accept. Kept
separate from `checkRateLimit` so the two can be compared. -/
def specSlidingWindow (capacity : Nat) (window : Int)
    (state : Int → List Int) (identity now : Int) :
    Bool × (Int → List Int) :=
  let windowStart := now - window
  let kept := (state identity).filter (fun t => !decide (t ≤ windowStart))
  if kept.length ≥ capacity then
    (false, fun u => if u = identity then kept else state u)
  else
    (true, fun u => if u = identity then kept ++ [now] else state u)

/-- Run a sequence of `checkRateLimit` calls, returning the final map and
the admission verdicts in call order. -/
def runRateCalls (maxRequests : Nat) (rateWindow : Int)
    (limiter : Int → List Int) :
    List (Int × Int) → (Int → List Int) × List Bool
  | [] => (limiter, [])
  | (uid, now) :: rest =>
    let r := checkRateLimit maxRequests rateWindow limiter uid now
    let rec' := runRateCalls maxRequests rateWindow r.2 rest
    (rec'.1, r.1 :: rec'.2)

/-- Run a sequence of `specSlidingWindow` calls. -/
def runSpecCalls (capacity : Nat) (window : Int)
    (state : Int → List Int) :
    List (Int × Int) → (Int → List Int) × List Bool
  | [] => (state, [])
  | (uid, now) :: rest =>
    let r := specSlidingWindow capacity window state uid now
    let rec' := runSpecCalls capacity window r.2 rest
    (rec'.1, r.1 :: rec'.2)

/-- main.go intake loop, per-update watermark step:
`if update.UpdateID > bot.LastUpdate { bot.LastUpdate = update.UpdateID }`. -/
def processUpdate (lastUpdate : Int) (u : Update) : Int :=
  if u.updateID > lastUpdate then u.updateID else lastUpdate

/-- main.go intake loop: watermark after processing one fetched batch in
delivery order. -/
def processBatch (lastUpdate : Int) (updates : List Update) : Int :=
  updates.foldl processUpdate lastUpdate

/-- ollama.go `GetUpdates`: the offset sent with the next fetch is
`LastUpdate + 1`. -/
def nextOffset (lastUpdate : Int) : Int := lastUpdate + 1

/-- Outcome of one fetch call as the intake loop sees it. -/
inductive FetchResult where
  | ok (updates : List Update)
  | fetchErr
deriving DecidableEq

/-- Observable effect of one intake-loop iteration: the watermark afterwards,
the backoff slept (seconds), whether an error was logged, and whether the
loop exited. -/
structure IntakeEffect where
  watermark : Int
  sleepSeconds : Nat
  loggedError : Bool
  terminated : Bool
deriving DecidableEq

/-- main.go intake loop body (the `default` branch of the `select`): a fetch
error is logged and followed by a fixed 5-second sleep and `continue`; a
successful fetch advances the watermark over the batch. Neither outcome
leaves the loop. -/
def intakeStep (lastUpdate : Int) : FetchResult → IntakeEffect
  | .fetchErr =>
    { watermark := lastUpdate, sleepSeconds := 5, loggedError := true, terminated := false }
  | .ok updates =>
    { watermark := processBatch lastUpdate updates, sleepSeconds := 0,
      loggedError := false, terminated := false }

/-- The intake loop iterated over a whole sequence of fetch outcomes. -/
def intakeTrace (lastUpdate : Int) : List FetchResult → List IntakeEffect
  | [] => []
  | f :: fs =>
    let e := intakeStep lastUpdate f
    e :: intakeTrace e.watermark fs

/-- Configuration surface of the bot used by the dispatcher (defaults:
capacity 10, window 60s, maximum prompt length 4096). -/
structure BotConfig where
  maxRequests : Nat
  rateWindow : Int
  maxPromptLen : Nat

/-- ollama.go: the "processing" acknowledgment sent before the backend call. -/
def processingMsg : List Char := "Обрабатываю запрос...".toList

/-- ollama.go: the fixed reply on rate-limit rejection. -/
def rateLimitedMsg : List Char :=
  "Слишком много запросов. Пожалуйста, подождите немного.".toList

/-- ollama.go: the reply on an over-long prompt (carries only the limit). -/
def tooLongMsg (maxPromptLen : Nat) : List Char :=
  ("Сообщение слишком длинное. Максимальная длина: " ++ toString maxPromptLen
    ++ " символов.").toList

/-- ollama.go: the fixed generic reply sent to the user on a backend
failure; a constant, independent of the failure. -/
def ollamaFailMsg : List Char :=
  "Произошла ошибка при обработке запроса. Попробуйте позже.".toList

/-- ollama.go: the continuation marker appended to the first chunk of a
multi-chunk reply. -/
def continuationMarker : List Char := "\n\n[Продолжение следует...]".toList

/-- ollama.go: the server-side log line for a backend failure; it carries
the detailed error. -/
def errLog (chatID : Int) (err : List Char) : List Char :=
  ("Ошибка от Ollama для chat " ++ toString chatID ++ ": ").toList ++ err

/-- What one `handleTextMessage` call produces: the outbound sends in order,
the server-side log lines, and the rate-limiter map afterwards. -/
structure HandlerResult where
  sends : List (List Char)
  logs : List (List Char)
  limiter : Int → List Int

/-- ollama.go `handleTextMessage` (hardened variant): rate-limit gate, then
prompt-length gate, then the "processing" acknowledgment, the backend call,
and either the generic failure reply (detailed error only logged) or the
reply split into ≤4000-byte chunks, the first chunk carrying the
continuation marker when there are several. The backend outcome is passed
in as `backend`. -/
def handleTextMessage (cfg : BotConfig) (limiter : Int → List Int)
    (chatID : Int) (text : List Char) (now : Int)
    (backend : Except (List Char) (List Char)) : HandlerResult :=
  let rl := checkRateLimit cfg.maxRequests cfg.rateWindow limiter chatID now
  if rl.1 = false then
    { sends := [rateLimitedMsg], logs := [], limiter := rl.2 }
  else if cfg.maxPromptLen < text.length then
    { sends := [tooLongMsg cfg.maxPromptLen], logs := [], limiter := rl.2 }
  else
    match backend with
    | .error e =>
      { sends := [processingMsg, ollamaFailMsg], logs := [errLog chatID e],
        limiter := rl.2 }
    | .ok response =>
      let parts := SplitMessage response 4000
      let outs := parts.enum.map
        (fun p => if p.1 = 0 ∧ 1 < parts.length then p.2 ++ continuationMarker else p.2)
      { sends := processingMsg :: outs, logs := [], limiter := rl.2 }

theorem stripWS_length_le (l : List Char) : (stripWS l).length ≤ l.length := by
  induction l with
  | nil => simp [stripWS]
  | cons c rest ih =>
    rw [stripWS]
    split
    · exact Nat.le_succ_of_le ih
    · simp

theorem scanBack_bounds (cur : List Char) (target : Char) (win maxLen : Nat) :
    ∀ i p, scanBack cur target win maxLen i = some p → 1 ≤ p ∧ p ≤ i := by
  intro i
  induction i with
  | zero => intro p h; simp [scanBack] at h
  | succ i ih =>
    intro p h
    rw [scanBack] at h
    split at h
    · split at h
      · cases h; omega
      · rcases ih p h with ⟨h1, h2⟩; omega
    · cases h

theorem splitPosOf_pos (cur : List Char) (maxLen : Nat) (h : 1 ≤ maxLen) :
    1 ≤ splitPosOf cur maxLen := by
  unfold splitPosOf
  cases h1 : scanBack cur '\n' 100 maxLen maxLen with
  | none =>
    simp only
    split
    · cases h2 : scanBack cur ' ' 50 maxLen maxLen with
      | none => simpa using h
      | some p => simpa using (scanBack_bounds cur ' ' 50 maxLen maxLen p h2).1
    · simpa using h
  | some p =>
    simp only
    split
    · cases h2 : scanBack cur ' ' 50 maxLen maxLen with
      | none => simpa using (scanBack_bounds cur '\n' 100 maxLen maxLen p h1).1
      | some q => simpa using (scanBack_bounds cur ' ' 50 maxLen maxLen q h2).1
    · simpa using (scanBack_bounds cur '\n' 100 maxLen maxLen p h1).1

theorem splitPosOf_le (cur : List Char) (maxLen : Nat) :
    splitPosOf cur maxLen ≤ maxLen := by
  unfold splitPosOf
  cases h1 : scanBack cur '\n' 100 maxLen maxLen with
  | none =>
    simp only
    split
    · cases h2 : scanBack cur ' ' 50 maxLen maxLen with
      | none => simp
      | some p => simpa using (scanBack_bounds cur ' ' 50 maxLen maxLen p h2).2
    · simp
  | some p =>
    simp only
    split
    · cases h2 : scanBack cur ' ' 50 maxLen maxLen with
      | none => simpa using (scanBack_bounds cur '\n' 100 maxLen maxLen p h1).2
      | some q => simpa using (scanBack_bounds cur ' ' 50 maxLen maxLen q h2).2
    · simpa using (scanBack_bounds cur '\n' 100 maxLen maxLen p h1).2

theorem splitLoop_step (maxLen : Nat) (cur : List Char)
    (h1 : 1 ≤ maxLen) (h2 : maxLen < cur.length) :
    splitLoop maxLen cur =
      cur.take (splitPosOf cur maxLen) ::
        splitLoop maxLen (stripWS (cur.drop (splitPosOf cur maxLen))) := by
  rw [splitLoop, dif_pos ⟨h1, h2⟩]

theorem splitLoop_base (maxLen : Nat) (cur : List Char)
    (h : ¬ (1 ≤ maxLen ∧ maxLen < cur.length)) :
    splitLoop maxLen cur = if 0 < cur.length then [cur] else [] := by
  rw [splitLoop, dif_neg h]

theorem splitLoopF_eq_splitLoop (maxLen : Nat) (hm : 1 ≤ maxLen) :
    ∀ fuel cur, cur.length ≤ fuel →
      splitLoopF maxLen fuel cur = some (splitLoop maxLen cur) := by
  intro fuel
  induction fuel with
  | zero =>
    intro cur hf
    have hnil : cur.length = 0 := Nat.le_zero.mp hf
    rw [splitLoopF, splitLoop_base]
    · simp [hnil]
    · omega
  | succ f ih =>
    intro cur hf
    rw [splitLoopF]
    by_cases h : maxLen < cur.length
    · rw [if_pos h]
      have hlt : (stripWS (cur.drop (splitPosOf cur maxLen))).length ≤ f := by
        have hs := stripWS_length_le (cur.drop (splitPosOf cur maxLen))
        have hp := splitPosOf_pos cur maxLen hm
        simp only [List.length_drop] at hs
        omega
      rw [ih _ hlt, splitLoop_step maxLen cur hm h]
      rfl
    · rw [if_neg h, splitLoop_base maxLen cur (by omega)]
      split <;> rfl

theorem splitMessageF_spec (text : List Char) (maxLen : Int) :
    SplitMessageF text maxLen text.length = some (SplitMessage text maxLen) := by
  rw [SplitMessageF, SplitMessage]
  by_cases h : (text.length : Int) ≤ maxLen
  · rw [if_pos h, if_pos h]
  · rw [if_neg h, if_neg h]
    apply splitLoopF_eq_splitLoop
    · by_cases h0 : maxLen ≤ 0
      · rw [if_pos h0]; omega
      · rw [if_neg h0]; omega
    · exact Nat.le_refl _

theorem splitMessage_eval (text : List Char) (maxLen : Int) (r : List (List Char))
    (h : SplitMessageF text maxLen text.length = some r) :
    SplitMessage text maxLen = r := by
  have h2 := splitMessageF_spec text maxLen
  rw [h] at h2
  exact (Option.some.inj h2).symm

theorem scanBack_replicate (n win m : Nat) (target : Char) (ht : target ≠ 'a') :
    ∀ i, scanBack (List.replicate n 'a') target win m i = none := by
  intro i
  induction i with
  | zero => rfl
  | succ i ih =>
    rw [scanBack]
    split
    · rw [List.getElem?_replicate]
      split
      · simp only [Option.some.injEq]
        rw [if_neg (fun hc => ht hc.symm)]
        exact ih
      · rw [if_neg (by simp)]
        exact ih
    · rfl

theorem splitPosOf_replicate (n m : Nat) : splitPosOf (List.replicate n 'a') m = m := by
  unfold splitPosOf
  rw [scanBack_replicate n 100 m '\n' (by decide), scanBack_replicate n 50 m ' ' (by decide)]
  simp

theorem stripWS_replicate (n : Nat) :
    stripWS (List.replicate n 'a') = List.replicate n 'a' := by
  cases n with
  | zero => rfl
  | succ k => rw [List.replicate_succ, stripWS, if_neg (by decide)]

theorem split_rep9000 : SplitMessage (List.replicate 9000 'a') 4000 =
    [List.replicate 4000 'a', List.replicate 4000 'a', List.replicate 1000 'a'] := by
  rw [SplitMessage, if_neg (by rw [List.length_replicate]; norm_num),
    if_neg (by norm_num)]
  rw [show ((4000 : Int).toNat) = 4000 from rfl]
  rw [splitLoop_step _ _ (by norm_num) (by rw [List.length_replicate]; norm_num),
    splitPosOf_replicate, List.take_replicate, List.drop_replicate, stripWS_replicate]
  norm_num
  rw [splitLoop_step _ _ (by norm_num) (by rw [List.length_replicate]; norm_num),
    splitPosOf_replicate, List.take_replicate, List.drop_replicate, stripWS_replicate]
  norm_num
  rw [splitLoop_base _ _ (by rw [List.length_replicate]; norm_num)]
  rw [if_pos (by rw [List.length_replicate]; norm_num)]

theorem stripWS_decomp (l : List Char) :
    ∃ p : List Char, (∀ c ∈ p, isWS c = true) ∧ l = p ++ stripWS l := by
  induction l with
  | nil => exact ⟨[], by simp, rfl⟩
  | cons c rest ih =>
    rw [stripWS]
    by_cases h : c = ' ' || c = '\n'
    · rw [if_pos h]
      obtain ⟨p, hp, heq⟩ := ih
      refine ⟨c :: p, ?_, by rw [List.cons_append, ← heq]⟩
      intro d hd
      rcases List.mem_cons.mp hd with rfl | hd
      · exact h
      · exact hp d hd
    · rw [if_neg h]
      exact ⟨[], by simp, rfl⟩

theorem splitLoop_reconstruct (m : Nat) (hm : 1 ≤ m) :
    ∀ n cur, cur.length ≤ n →
      ∃ ws : List (List Char), ws.length = (splitLoop m cur).length ∧
        (∀ w ∈ ws, ∀ c ∈ w, isWS c = true) ∧
        joinWith (splitLoop m cur) ws = cur := by
  intro n
  induction n with
  | zero =>
    intro cur hlen
    have hcur : cur = [] := List.length_eq_zero.mp (Nat.le_zero.mp hlen)
    subst hcur
    rw [splitLoop_base m [] (by simp)]
    exact ⟨[], by simp, by simp, rfl⟩
  | succ n ih =>
    intro cur hlen
    by_cases h : m < cur.length
    · rw [splitLoop_step m cur hm h]
      obtain ⟨p, hp, hdecomp⟩ := stripWS_decomp (cur.drop (splitPosOf cur m))
      have hrec : (stripWS (cur.drop (splitPosOf cur m))).length ≤ n := by
        have hs := stripWS_length_le (cur.drop (splitPosOf cur m))
        have hpos := splitPosOf_pos cur m hm
        simp only [List.length_drop] at hs
        omega
      obtain ⟨ws', hlen', hws', hjoin'⟩ := ih (stripWS (cur.drop (splitPosOf cur m))) hrec
      refine ⟨p :: ws', by simp [hlen'], ?_, ?_⟩
      · intro w hw
        rcases List.mem_cons.mp hw with rfl | hw
        · exact hp
        · exact hws' w hw
      · rw [joinWith, hjoin', ← hdecomp, List.take_append_drop]
    · rw [splitLoop_base m cur (by omega)]
      by_cases h0 : 0 < cur.length
      · rw [if_pos h0]
        exact ⟨[[]], rfl, by simp, by simp [joinWith]⟩
      · rw [if_neg h0]
        have hcur : cur = [] := List.length_eq_zero.mp (by omega)
        exact ⟨[], by simp, by simp, by simp [joinWith, hcur]⟩

theorem splitLoop_chunk_le (m : Nat) (hm : 1 ≤ m) :
    ∀ n cur, cur.length ≤ n → ∀ part ∈ splitLoop m cur, part.length ≤ m := by
  intro n
  induction n with
  | zero =>
    intro cur hlen part hpart
    have hcur : cur = [] := List.length_eq_zero.mp (Nat.le_zero.mp hlen)
    subst hcur
    rw [splitLoop_base m [] (by simp)] at hpart
    simp at hpart
  | succ n ih =>
    intro cur hlen part hpart
    by_cases h : m < cur.length
    · rw [splitLoop_step m cur hm h] at hpart
      rcases List.mem_cons.mp hpart with rfl | hpart
      · calc (cur.take (splitPosOf cur m)).length
            ≤ splitPosOf cur m := by simp
          _ ≤ m := splitPosOf_le cur m
      · have hrec : (stripWS (cur.drop (splitPosOf cur m))).length ≤ n := by
          have hs := stripWS_length_le (cur.drop (splitPosOf cur m))
          have hpos := splitPosOf_pos cur m hm
          simp only [List.length_drop] at hs
          omega
        exact ih _ hrec part hpart
    · rw [splitLoop_base m cur (by omega)] at hpart
      by_cases h0 : 0 < cur.length
      · rw [if_pos h0] at hpart
        rcases List.mem_singleton.mp hpart with rfl
        omega
      · rw [if_neg h0] at hpart
        simp at hpart

theorem checkRateLimit_snd (N : Nat) (W : Int) (s : Int → List Int) (uid now u : Int) :
    (checkRateLimit N W s uid now).2 u =
      if u = uid then
        (if N ≤ ((s uid).filter (fun t => decide (now - W < t))).length
          then (s uid).filter (fun t => decide (now - W < t))
          else (s uid).filter (fun t => decide (now - W < t)) ++ [now])
      else s u := by
  unfold checkRateLimit
  by_cases hc : N ≤ ((s uid).filter (fun t => decide (now - W < t))).length
  · simp only [if_pos hc]
  · simp only [if_neg hc]

theorem checkRateLimit_fst (N : Nat) (W : Int) (s : Int → List Int) (uid now : Int) :
    (checkRateLimit N W s uid now).1 =
      if N ≤ ((s uid).filter (fun t => decide (now - W < t))).length
        then false else true := by
  unfold checkRateLimit
  by_cases hc : N ≤ ((s uid).filter (fun t => decide (now - W < t))).length
  · simp only [if_pos hc]
  · simp only [if_neg hc]

theorem checkRateLimit_state_bound (N : Nat) (W : Int) (s : Int → List Int)
    (uid now : Int) (hs : ∀ u, (s u).length ≤ N) :
    ∀ u, ((checkRateLimit N W s uid now).2 u).length ≤ N := by
  intro u
  rw [checkRateLimit_snd]
  have hrec : ((s uid).filter (fun t => decide (now - W < t))).length ≤ (s uid).length :=
    List.length_filter_le _ _
  by_cases hu : u = uid
  · rw [if_pos hu]
    by_cases hc : N ≤ ((s uid).filter (fun t => decide (now - W < t))).length
    · rw [if_pos hc]
      exact hrec.trans (hs uid)
    · rw [if_neg hc]
      rw [List.length_append]
      simp only [List.length_singleton]
      omega
  · rw [if_neg hu]
    exact hs u

theorem runRateCalls_state_bound (N : Nat) (W : Int) :
    ∀ (calls : List (Int × Int)) (s : Int → List Int),
      (∀ u, (s u).length ≤ N) →
      ∀ u, ((runRateCalls N W s calls).1 u).length ≤ N := by
  intro calls
  induction calls with
  | nil => intro s hs u; exact hs u
  | cons c rest ih =>
    intro s hs u
    cases c with
    | mk uid now =>
      simp only [runRateCalls]
      exact ih _ (checkRateLimit_state_bound N W s uid now hs) u

theorem processUpdate_eq_max (w : Int) (u : Update) :
    processUpdate w u = max w u.updateID := by
  unfold processUpdate
  by_cases h : u.updateID > w
  · rw [if_pos h, max_eq_right (le_of_lt h)]
  · rw [if_neg h, max_eq_left (not_lt.mp h)]

theorem processUpdate_mono (w : Int) (u : Update) : w ≤ processUpdate w u := by
  rw [processUpdate_eq_max]
  exact le_max_left _ _

theorem processBatch_le (us : List Update) : ∀ w : Int, w ≤ processBatch w us := by
  induction us with
  | nil => intro w; simp [processBatch]
  | cons u rest ih =>
    intro w
    have h1 : processBatch w (u :: rest) = processBatch (processUpdate w u) rest := by
      simp [processBatch]
    rw [h1]
    exact (processUpdate_mono w u).trans (ih _)

theorem processBatch_mem_le (us : List Update) :
    ∀ (w : Int) (u : Update), u ∈ us → u.updateID ≤ processBatch w us := by
  induction us with
  | nil => intro w u hu; simp at hu
  | cons v rest ih =>
    intro w u hu
    have h1 : processBatch w (v :: rest) = processBatch (processUpdate w v) rest := by
      simp [processBatch]
    rw [h1]
    rcases List.mem_cons.mp hu with rfl | hu
    · calc u.updateID ≤ processUpdate w u := by
            rw [processUpdate_eq_max]; exact le_max_right _ _
        _ ≤ processBatch (processUpdate w u) rest := processBatch_le rest _
    · exact ih _ u hu

theorem processBatch_eq_foldl_max (us : List Update) :
    ∀ w : Int, processBatch w us = us.foldl (fun a u => max a u.updateID) w := by
  induction us with
  | nil => intro w; rfl
  | cons u rest ih =>
    intro w
    have h1 : processBatch w (u :: rest) = processBatch (processUpdate w u) rest := by
      simp [processBatch]
    rw [h1, ih, List.foldl_cons, processUpdate_eq_max]

theorem handleTextMessage_rateLimited (cfg : BotConfig) (limiter : Int → List Int)
    (chatID : Int) (text : List Char) (now : Int)
    (backend : Except (List Char) (List Char))
    (hrl : (checkRateLimit cfg.maxRequests cfg.rateWindow limiter chatID now).1 = false) :
    handleTextMessage cfg limiter chatID text now backend =
      { sends := [rateLimitedMsg], logs := [],
        limiter := (checkRateLimit cfg.maxRequests cfg.rateWindow limiter chatID now).2 } := by
  simp only [handleTextMessage]
  rw [hrl, if_pos rfl]

theorem handleTextMessage_tooLong (cfg : BotConfig) (limiter : Int → List Int)
    (chatID : Int) (text : List Char) (now : Int)
    (backend : Except (List Char) (List Char))
    (hrl : (checkRateLimit cfg.maxRequests cfg.rateWindow limiter chatID now).1 = true)
    (hlen : cfg.maxPromptLen < text.length) :
    handleTextMessage cfg limiter chatID text now backend =
      { sends := [tooLongMsg cfg.maxPromptLen], logs := [],
        limiter := (checkRateLimit cfg.maxRequests cfg.rateWindow limiter chatID now).2 } := by
  simp only [handleTextMessage]
  rw [hrl, if_neg (by simp), if_pos hlen]

theorem handleTextMessage_backendErr (cfg : BotConfig) (limiter : Int → List Int)
    (chatID : Int) (text : List Char) (now : Int) (err : List Char)
    (hrl : (checkRateLimit cfg.maxRequests cfg.rateWindow limiter chatID now).1 = true)
    (hlen : text.length ≤ cfg.maxPromptLen) :
    handleTextMessage cfg limiter chatID text now (Except.error err) =
      { sends := [processingMsg, ollamaFailMsg], logs := [errLog chatID err],
        limiter := (checkRateLimit cfg.maxRequests cfg.rateWindow limiter chatID now).2 } := by
  simp only [handleTextMessage]
  rw [hrl, if_neg (by simp), if_neg (not_lt.mpr hlen)]

theorem handleTextMessage_backendOk (cfg : BotConfig) (limiter : Int → List Int)
    (chatID : Int) (text : List Char) (now : Int) (response : List Char)
    (hrl : (checkRateLimit cfg.maxRequests cfg.rateWindow limiter chatID now).1 = true)
    (hlen : text.length ≤ cfg.maxPromptLen) :
    handleTextMessage cfg limiter chatID text now (Except.ok response) =
      { sends := processingMsg ::
          (SplitMessage response 4000).enum.map
            (fun p => if p.1 = 0 ∧ 1 < (SplitMessage response 4000).length
              then p.2 ++ continuationMarker else p.2),
        logs := [],
        limiter := (checkRateLimit cfg.maxRequests cfg.rateWindow limiter chatID now).2 } := by
  simp only [handleTextMessage]
  rw [hrl, if_neg (by simp), if_neg (not_lt.mpr hlen)]

theorem splitMessage_chunk_le (text : List Char) (maxLen : Int) (h1 : 1 ≤ maxLen) :
    ∀ part ∈ SplitMessage text maxLen, part.length ≤ maxLen.toNat := by
  rw [SplitMessage]
  by_cases hle : (text.length : Int) ≤ maxLen
  · rw [if_pos hle]
    intro part hp
    rcases List.mem_singleton.mp hp with rfl
    omega
  · rw [if_neg hle, if_neg (by omega)]
    exact splitLoop_chunk_le maxLen.toNat (by omega) text.length text le_rfl

/-- Claim C1: for every capacity, window, stored state, sender identity and
call instant, `checkRateLimit` coincides with the reference sliding-window
rule `specSlidingWindow` (prune timestamps `≤ now - W`, reject persisting
the pruned list when `≥ N` remain, else append `now` and accept); hence the
two agree on every call sequence. With capacity 2 and window 60s, calls at
t = 0, 1, 2, 61 for one identity yield true, true, false, true. -/
theorem C1_checkRateLimit_refines_slidingWindow :
    (∀ (maxRequests : Nat) (rateWindow : Int) (limiter : Int → List Int) (uid now : Int),
        checkRateLimit maxRequests rateWindow limiter uid now =
          specSlidingWindow maxRequests rateWindow limiter uid now) ∧
    (∀ (maxRequests : Nat) (rateWindow : Int) (limiter : Int → List Int)
        (calls : List (Int × Int)),
        runRateCalls maxRequests rateWindow limiter calls =
          runSpecCalls maxRequests rateWindow limiter calls) ∧
    (runRateCalls 2 60 rateEmpty [(7, 0), (7, 1), (7, 2), (7, 61)]).2 =
      [true, true, false, true] := by
  have hstep : ∀ (N : Nat) (W : Int) (s : Int → List Int) (uid now : Int),
      checkRateLimit N W s uid now = specSlidingWindow N W s uid now := by
    intro N W s uid now
    simp only [checkRateLimit, specSlidingWindow]
    have hfilter : (fun t => decide (now - W < t)) = (fun t => !decide (t ≤ now - W)) := by
      funext t
      by_cases h : now - W < t
      · simp [h, not_le.mpr h]
      · simp [h, not_lt.mp h]
    rw [hfilter]
  refine ⟨hstep, ?_, by decide⟩
  intro N W s calls
  induction calls generalizing s with
  | nil => rfl
  | cons c rest ih =>
    cases c with
    | mk uid now =>
      simp only [runRateCalls, runSpecCalls]
      rw [hstep, ih]

/-- Claim C9: starting from the empty map, after any sequence of
`checkRateLimit` calls each identity retains at most `maxRequests`
timestamps; and a rejecting call only prunes — the stored list after a
rejection is a sublist of what was stored before, so a timestamp is appended
only on an accepting call. -/
theorem C9_rate_state_bounded :
    (∀ (maxRequests : Nat) (rateWindow : Int) (calls : List (Int × Int)) (uid : Int),
        ((runRateCalls maxRequests rateWindow rateEmpty calls).1 uid).length ≤ maxRequests) ∧
    (∀ (maxRequests : Nat) (rateWindow : Int) (limiter : Int → List Int) (uid now : Int),
        (checkRateLimit maxRequests rateWindow limiter uid now).1 = false →
        ((checkRateLimit maxRequests rateWindow limiter uid now).2 uid).Sublist
          (limiter uid)) := by
  constructor
  · intro N W calls uid
    exact runRateCalls_state_bound N W calls rateEmpty (fun _ => by simp [rateEmpty]) uid
  · intro N W s uid now hrej
    rw [checkRateLimit_fst] at hrej
    have hc : N ≤ ((s uid).filter (fun t => decide (now - W < t))).length := by
      by_contra hc
      rw [if_neg hc] at hrej
      simp at hrej
    rw [checkRateLimit_snd, if_pos rfl, if_pos hc]
    exact List.filter_sublist _

/-- Claim C5: the watermark never decreases at any processed event; after a
batch it equals the running maximum of its prior value and the batch's
sequence ids; for the batch [3, 1, 4] over prior watermark 0 it is 4 and the
next fetch offset is 5. -/
theorem C5_watermark_max_and_offset :
    (∀ (w : Int) (u : Update), w ≤ processUpdate w u) ∧
    (∀ (w : Int) (us : List Update),
        w ≤ processBatch w us ∧ ∀ u ∈ us, u.updateID ≤ processBatch w us) ∧
    (∀ (w : Int) (us : List Update),
        processBatch w us = us.foldl (fun a u => max a u.updateID) w) ∧
    processBatch 0 [⟨3, none⟩, ⟨1, none⟩, ⟨4, none⟩] = 4 ∧
    nextOffset (processBatch 0 [⟨3, none⟩, ⟨1, none⟩, ⟨4, none⟩]) = 5 := by
  refine ⟨processUpdate_mono, ?_, ?_, by decide, by decide⟩
  · intro w us
    exact ⟨processBatch_le us w, fun u hu => processBatch_mem_le us w u hu⟩
  · intro w us
    exact processBatch_eq_foldl_max us w

/-- Claim C6: a fetch error in the intake loop leaves the watermark
untouched, logs the error, sleeps the fixed 5-second backoff and does not
terminate the loop; and the loop produces one effect per fetch outcome on
every trace — no outcome, error included, stops it. -/
theorem C6_fetch_error_backoff :
    (∀ w : Int, intakeStep w FetchResult.fetchErr =
      { watermark := w, sleepSeconds := 5, loggedError := true, terminated := false }) ∧
    (∀ (w : Int) (fs : List FetchResult), (intakeTrace w fs).length = fs.length) := by
  constructor
  · intro w; rfl
  · intro w fs
    induction fs generalizing w with
    | nil => rfl
    | cons f rest ih =>
      simp only [intakeTrace, List.length_cons, ih]

/-- Claim C7: `SplitMessage` terminates on every input — the fuel-bounded
transcription of its loop finishes within `length text` iterations for every
text and every `maxLen`, the non-positive case included, because a
non-positive `maxLen` is replaced by the default 4000 before the splitting
loop (second conjunct). -/
theorem C7_splitMessage_total (text : List Char) (maxLen : Int) :
    SplitMessageF text maxLen text.length = some (SplitMessage text maxLen) ∧
    (maxLen ≤ 0 → ¬ ((text.length : Int) ≤ maxLen) →
      SplitMessage text maxLen = splitLoop 4000 text) := by
  refine ⟨splitMessageF_spec text maxLen, ?_⟩
  intro h0 hlen
  rw [SplitMessage, if_neg hlen, if_pos h0]

/-- Witness for C7 at `text = "abc"`, `maxLen = -1`. -/
theorem C7_splitMessage_total_witness :
    SplitMessageF "abc".toList (-1) ("abc".toList.length) =
      some (SplitMessage "abc".toList (-1)) ∧
    SplitMessage "abc".toList (-1) = splitLoop 4000 "abc".toList :=
  ⟨(C7_splitMessage_total "abc".toList (-1)).1,
    (C7_splitMessage_total "abc".toList (-1)).2 (by decide) (by decide)⟩

/-- Counterexample to claim C2 as stated: with `text = "aa   "` and
`maxLen = 2` the Segmenter returns the single chunk `"aa"`, and no choice of
whitespace runs placed only between consecutive chunks (`n - 1` runs for `n`
chunks) reassembles the original text — the trailing run `"   "` was skipped
after the final emitted chunk. -/
theorem C2_between_chunks_counterexample :
    ¬ ∃ ws : List (List Char),
        ws.length + 1 = (SplitMessage "aa   ".toList 2).length ∧
        (∀ w ∈ ws, ∀ c ∈ w, isWS c = true) ∧
        joinWith (SplitMessage "aa   ".toList 2) ws = "aa   ".toList := by
  have hsplit : SplitMessage "aa   ".toList 2 = ["aa".toList] :=
    splitMessage_eval _ _ _ (by decide)
  rw [hsplit]
  rintro ⟨ws, hlen, hws, hjoin⟩
  have hnil : ws = [] := by
    simp only [List.length_singleton] at hlen
    exact List.length_eq_zero.mp (by omega)
  subst hnil
  simp [joinWith] at hjoin

/-- Claim C2 (amended): for every text and `maxLen > 0` there are whitespace
runs `w1 … wn`, one per chunk and possibly empty — the run after the last
chunk absorbing a skipped all-whitespace tail — such that
`text = chunk1 ++ w1 ++ … ++ chunkn ++ wn`. -/
theorem C2_segmenter_reconstruction (text : List Char) (maxLen : Int)
    (h : 0 < maxLen) :
    ∃ ws : List (List Char),
      ws.length = (SplitMessage text maxLen).length ∧
      (∀ w ∈ ws, ∀ c ∈ w, isWS c = true) ∧
      joinWith (SplitMessage text maxLen) ws = text := by
  rw [SplitMessage]
  by_cases hle : (text.length : Int) ≤ maxLen
  · rw [if_pos hle]
    exact ⟨[[]], rfl, by simp, by simp [joinWith]⟩
  · rw [if_neg hle, if_neg (by omega)]
    exact splitLoop_reconstruct maxLen.toNat (by omega) text.length text le_rfl

/-- Witness for C2 (amended) at `text = "ab cd"`, `maxLen = 4`. -/
theorem C2_segmenter_reconstruction_witness :
    ∃ ws : List (List Char),
      ws.length = (SplitMessage "ab cd".toList 4).length ∧
      (∀ w ∈ ws, ∀ c ∈ w, isWS c = true) ∧
      joinWith (SplitMessage "ab cd".toList 4) ws = "ab cd".toList :=
  C2_segmenter_reconstruction "ab cd".toList 4 (by decide)

/-- Claim C8: the Access Guard admits every sender identity when the
allow-list is empty, and exactly the members when it is not; with allow-list
{5}, identity 5 is allowed and identity 6 is not. -/
theorem C8_access_guard :
    (∀ (allowedUsers : List Int) (uid cid : Int) (txt : List Char),
        (allowedUsers = [] →
          isUserAllowed allowedUsers ⟨some ⟨uid⟩, ⟨cid⟩, txt⟩ = true) ∧
        (allowedUsers ≠ [] →
          (isUserAllowed allowedUsers ⟨some ⟨uid⟩, ⟨cid⟩, txt⟩ = true ↔
            uid ∈ allowedUsers))) ∧
    isUserAllowed [5] ⟨some ⟨5⟩, ⟨0⟩, []⟩ = true ∧
    isUserAllowed [5] ⟨some ⟨6⟩, ⟨0⟩, []⟩ = false := by
  refine ⟨?_, by decide, by decide⟩
  intro allowedUsers uid cid txt
  constructor
  · intro h; subst h; rfl
  · intro h
    unfold isUserAllowed
    rw [if_neg (by simpa [List.isEmpty_iff] using h)]
    simp

/-- Witness for C8 with allow-list {5}: membership of 5 makes the guard
admit identity 5. -/
theorem C8_access_guard_witness :
    isUserAllowed [5] ⟨some ⟨5⟩, ⟨9⟩, []⟩ = true :=
  ((C8_access_guard.1 [5] 5 9 []).2 (by decide)).mpr (by decide)

/-- Claim C10: with a non-empty allow-list, a message with no sender field
is admitted exactly when its chat destination id is a member. -/
theorem C10_nil_sender_chat_fallback (allowedUsers : List Int) (cid : Int)
    (txt : List Char) (h : allowedUsers ≠ []) :
    isUserAllowed allowedUsers ⟨none, ⟨cid⟩, txt⟩ = true ↔ cid ∈ allowedUsers := by
  unfold isUserAllowed
  rw [if_neg (by simpa [List.isEmpty_iff] using h)]
  simp

/-- Witness for C10 with allow-list {5} and chat id 5. -/
theorem C10_nil_sender_chat_fallback_witness :
    isUserAllowed [5] ⟨none, ⟨5⟩, []⟩ = true :=
  (C10_nil_sender_chat_fallback [5] 5 [] (by decide)).mpr (by decide)

/-- Claim C4: whenever the backend fails during freeform handling, the
sender receives exactly the acknowledgment followed by the fixed generic
failure text `ollamaFailMsg` — a constant independent of the failure — while
the detailed error goes only to the internal log. -/
theorem C4_backend_failure_generic (cfg : BotConfig) (limiter : Int → List Int)
    (chatID : Int) (text : List Char) (now : Int) (err : List Char)
    (hrl : (checkRateLimit cfg.maxRequests cfg.rateWindow limiter chatID now).1 = true)
    (hlen : text.length ≤ cfg.maxPromptLen) :
    (handleTextMessage cfg limiter chatID text now (Except.error err)).sends =
      [processingMsg, ollamaFailMsg] ∧
    (handleTextMessage cfg limiter chatID text now (Except.error err)).logs =
      [errLog chatID err] := by
  rw [handleTextMessage_backendErr cfg limiter chatID text now err hrl hlen]
  exact ⟨rfl, rfl⟩

/-- Witness for C4 at the default configuration, an empty limiter state and
the failure "boom". -/
theorem C4_backend_failure_generic_witness :
    (handleTextMessage ⟨10, 60, 4096⟩ rateEmpty 7 "hi".toList 0
        (Except.error "boom".toList)).sends = [processingMsg, ollamaFailMsg] ∧
    (handleTextMessage ⟨10, 60, 4096⟩ rateEmpty 7 "hi".toList 0
        (Except.error "boom".toList)).logs = [errLog 7 "boom".toList] :=
  C4_backend_failure_generic ⟨10, 60, 4096⟩ rateEmpty 7 "hi".toList 0 "boom".toList
    (by decide) (by decide)

/-- Counterexample to claim C3 as stated: a freeform message of length 10000
from an allowed, not-rate-limited sender with a 9000-character backend reply
never yields exactly 3 outbound sends. Under the default configuration
(maximum prompt length 4096) the prompt-length gate rejects it with a single
send; with the gate widened to admit it, the 9000-character reply splits
into three ≤4000-character chunks, so 4 sends go out (ack + 3 chunks). -/
theorem C3_three_sends_counterexample :
    (handleTextMessage ⟨10, 60, 4096⟩ rateEmpty 7 (List.replicate 10000 'a') 0
        (Except.ok (List.replicate 9000 'a'))).sends.length ≠ 3 ∧
    (handleTextMessage ⟨10, 60, 10000⟩ rateEmpty 7 (List.replicate 10000 'a') 0
        (Except.ok (List.replicate 9000 'a'))).sends.length ≠ 3 := by
  constructor
  · rw [handleTextMessage_tooLong ⟨10, 60, 4096⟩ rateEmpty 7 (List.replicate 10000 'a') 0
      (Except.ok (List.replicate 9000 'a')) (by decide)
      (by rw [List.length_replicate]; norm_num)]
    simp
  · rw [handleTextMessage_backendOk ⟨10, 60, 10000⟩ rateEmpty 7 (List.replicate 10000 'a') 0
      (List.replicate 9000 'a') (by decide) (by rw [List.length_replicate])]
    rw [split_rep9000]
    generalize List.replicate 4000 'a' = r4
    generalize List.replicate 1000 'a' = r1
    simp [List.enum, List.enumFrom]

/-- Claim C3 (amended): a freeform 10000-character message from an allowed,
not-rate-limited sender whose configured maximum prompt length admits it,
answered by a whitespace-free backend reply of length 9000, produces exactly
4 outbound sends — the processing acknowledgment and 3 chunks — with the
first chunk carrying the continuation marker; and every chunk the Segmenter
produces at limit 4000 has length at most 4000, whatever the reply. Under
the default maximum prompt length 4096 such a message is instead rejected
with the single "too long" reply (see the counterexample). -/
theorem C3_freeform_dispatch_sends (cfg : BotConfig) (limiter : Int → List Int)
    (chatID now : Int)
    (hrl : (checkRateLimit cfg.maxRequests cfg.rateWindow limiter chatID now).1 = true)
    (hlen : 10000 ≤ cfg.maxPromptLen) :
    (handleTextMessage cfg limiter chatID (List.replicate 10000 'a') now
        (Except.ok (List.replicate 9000 'a'))).sends =
      [processingMsg,
        List.replicate 4000 'a' ++ continuationMarker,
        List.replicate 4000 'a',
        List.replicate 1000 'a'] ∧
    (∀ (reply : List Char), ∀ part ∈ SplitMessage reply 4000, part.length ≤ 4000) := by
  constructor
  · rw [handleTextMessage_backendOk cfg limiter chatID (List.replicate 10000 'a') now
      (List.replicate 9000 'a') hrl (by rw [List.length_replicate]; omega)]
    rw [split_rep9000]
    generalize List.replicate 4000 'a' = r4
    generalize List.replicate 1000 'a' = r1
    simp [List.enum, List.enumFrom]
  · intro reply part hp
    have := splitMessage_chunk_le reply 4000 (by norm_num) part hp
    omega

/-- Witness for C3 (amended) at a configuration whose prompt-length limit is
10000 and an empty limiter state. -/
theorem C3_freeform_dispatch_sends_witness :
    (handleTextMessage ⟨10, 60, 10000⟩ rateEmpty 7 (List.replicate 10000 'a') 0
        (Except.ok (List.replicate 9000 'a'))).sends =
      [processingMsg,
        List.replicate 4000 'a' ++ continuationMarker,
        List.replicate 4000 'a',
        List.replicate 1000 'a'] :=
  (C3_freeform_dispatch_sends ⟨10, 60, 10000⟩ rateEmpty 7 0 (by decide) (by decide)).1

/-- Witness for C5 on the example batch: the member with sequence id 4 is
dominated by the resulting watermark. -/
theorem C5_watermark_max_and_offset_witness :
    (⟨4, none⟩ : Update).updateID ≤ processBatch 0 [⟨3, none⟩, ⟨1, none⟩, ⟨4, none⟩] :=
  (C5_watermark_max_and_offset.2.1 0 [⟨3, none⟩, ⟨1, none⟩, ⟨4, none⟩]).2
    ⟨4, none⟩ (by decide)

/-- Witness for C9: a concrete run stays within capacity 2, and a rejecting
call (capacity 0) only prunes the stored list. -/
theorem C9_rate_state_bounded_witness :
    ((runRateCalls 2 60 rateEmpty [(7, 0), (7, 1), (7, 2)]).1 7).length ≤ 2 ∧
    ((checkRateLimit 0 60 rateEmpty 7 0).2 7).Sublist (rateEmpty 7) :=
  ⟨C9_rate_state_bounded.1 2 60 [(7, 0), (7, 1), (7, 2)] 7,
    C9_rate_state_bounded.2 0 60 rateEmpty 7 0 (by decide)⟩
